import Mathlib

/-!
Verification of the ion shell's expansion engine, builtin dispatch table,
exit builtin and redox exec shim against their specification.

The Rust source is shallowly embedded: pure functions become Lean
functions over `String`/`List`/`Nat`, effectful code (fork, kill,
tcsetpgrp, fexec) is embedded by making the outcome of each effect an
explicit parameter and recording emitted effects in the result.
-/

namespace Ion

/-! ## Builtin dispatch table (`src/lib/builtins/mod.rs`)

`BuiltinFunction` is an opaque function pointer in the source; here each
registered function is one constructor of `Fn`, named after the Rust
function registered in the `BUILTINS` table. -/

inductive Fn where
  | builtin_alias
  | builtin_bg
  | builtin_bool
  | builtin_calc
  | builtin_cd
  | contains
  | builtin_dirs
  | builtin_disown
  | builtin_drop
  | builtin_echo
  | ends_with
  | builtin_eq
  | builtin_eval
  | builtin_exec
  | builtin_exists
  | builtin_exit
  | builtin_false
  | builtin_fg
  | builtin_fn
  | builtin_help
  | builtin_history
  | builtin_is
  | builtin_isatty
  | builtin_jobs
  | builtin_matches
  | builtin_popd
  | builtin_pushd
  | builtin_random
  | builtin_read
  | builtin_set
  | builtin_source
  | starts_with
  | builtin_status
  | builtin_suspend
  | builtin_test
  | builtin_true
  | builtin_type
  | builtin_unalias
  | builtin_wait
  | builtin_which
  deriving DecidableEq, BEq, Inhabited

/-- `const HELP_DESC` from the source. -/
def HELP_DESC : String :=
  "Display helpful information about a given command or list commands if none specified\n    help <command>"

/-- `const SOURCE_DESC` from the source. -/
def SOURCE_DESC : String :=
  "Evaluate the file following the command or re-initialize the init file"

/-- `const DISOWN_DESC` from the source. -/
def DISOWN_DESC : String :=
  "Disowning a process removes that process from the shell's background process table."

/-- `struct BuiltinMap`: three parallel static arrays. -/
structure BuiltinMap where
  name : List String
  help : List String
  functions : List Fn

/-- The `BUILTINS` table, produced by the `map!` macro: the three arrays
hold the names, help strings and functions in the order written in the
source. -/
def BUILTINS : BuiltinMap :=
  { name :=
      [ "alias", "bg", "bool", "calc", "cd", "contains", "dirs", "disown"
      , "drop", "echo", "ends-with", "eq", "eval", "exec", "exists", "exit"
      , "false", "fg", "fn", "help", "history", "is", "isatty", "jobs"
      , "matches", "popd", "pushd", "random", "read", "set", "source"
      , "starts-with", "status", "suspend", "test", "true", "type"
      , "unalias", "wait", "which" ]
  , help :=
      [ "View, set or unset aliases"
      , "Resumes a stopped background process"
      , "If the value is '1' or 'true', return 0 exit status"
      , "Calculate a mathematical expression"
      , "Change the current directory\n    cd <path>"
      , "Evaluates if the supplied argument contains a given string"
      , "Display the current directory stack"
      , DISOWN_DESC
      , "Delete a variable"
      , "Display a line of text"
      , "Evaluates if the supplied argument ends with a given string"
      , "Simple alternative to == and !="
      , "Evaluates the evaluated expression"
      , "Replace the shell with the given command."
      , "Performs tests on files and text"
      , "Exits the current session"
      , "Do nothing, unsuccessfully"
      , "Resumes and sets a background process as the active process"
      , "Print list of functions"
      , HELP_DESC
      , "Display a log of all commands previously executed"
      , "Simple alternative to == and !="
      , "Returns 0 exit status if the supplied FD is a tty"
      , "Displays all jobs that are attached to the background"
      , "Checks if a string matches a given regex"
      , "Pop a directory from the stack"
      , "Push a directory to the stack"
      , "Outputs a random u64"
      , "Read some variables\n    read <variable>"
      , "Set or unset values of shell options and positional parameters."
      , SOURCE_DESC
      , "Evaluates if the supplied argument starts with a given string"
      , "Evaluates the current runtime status"
      , "Suspends the shell with a SIGTSTOP signal"
      , "Performs tests on files and text"
      , "Do nothing, successfully"
      , "indicates how a command would be interpreted"
      , "Delete an alias"
      , "Waits until all running background processes have completed"
      , "Shows the full path of commands" ]
  , functions :=
      [ .builtin_alias, .builtin_bg, .builtin_bool, .builtin_calc, .builtin_cd
      , .contains, .builtin_dirs, .builtin_disown, .builtin_drop, .builtin_echo
      , .ends_with, .builtin_eq, .builtin_eval, .builtin_exec, .builtin_exists
      , .builtin_exit, .builtin_false, .builtin_fg, .builtin_fn, .builtin_help
      , .builtin_history, .builtin_is, .builtin_isatty, .builtin_jobs
      , .builtin_matches, .builtin_popd, .builtin_pushd, .builtin_random
      , .builtin_read, .builtin_set, .builtin_source, .starts_with
      , .builtin_status, .builtin_suspend, .builtin_test, .builtin_true
      , .builtin_type, .builtin_unalias, .builtin_wait, .builtin_which ] }

/-- Lexicographic comparison of character lists by code point. -/
def charListCmp : List Char → List Char → Ordering
  | [], [] => .eq
  | [], _ :: _ => .lt
  | _ :: _, [] => .gt
  | a :: as, b :: bs =>
    if a.toNat < b.toNat then .lt
    else if b.toNat < a.toNat then .gt
    else charListCmp as bs

/-- Rust string comparison (`str::cmp`): byte-lexicographic, which for
ASCII strings such as the names of the table coincides with
character-lexicographic comparison by code point. -/
def strCmp (a b : String) : Ordering := charListCmp a.toList b.toList

/-- The loop of Rust `slice::binary_search_by` (the `base`/`size` halving
version used by the `std` of the crate's era).  The loop terminates because
`size` strictly decreases; the embedding makes that explicit with a fuel
argument which is always called with `fuel >= size`, so the fuel never runs
out. -/
def binarySearchLoop (names : List String) (key : String) : Nat → Nat → Nat → Nat
  | 0, base, _ => base
  | fuel + 1, base, size =>
    if 1 < size then
      let half := size / 2
      let mid := base + half
      let base' :=
        match strCmp (names.getD mid "") key with
        | .gt => base
        | _ => mid
      binarySearchLoop names key fuel base' (size - half)
    else base

/-- Rust `slice::binary_search(&key)` restricted to its observable use in
the source (`is_ok` / `ok()`): `some index` on a hit, `none` on a miss.
`get_unchecked` probes are embedded as `getD` with a default; the bounds
invariant is proved separately. -/
def binary_search (names : List String) (key : String) : Option Nat :=
  if names.length = 0 then none
  else
    let base := binarySearchLoop names key names.length 0 names.length
    match strCmp (names.getD base "") key with
    | .eq => some base
    | _ => none

/-- `BuiltinMap::contains_key`. -/
def BuiltinMap.contains_key (m : BuiltinMap) (func : String) : Bool :=
  (binary_search m.name func).isSome

/-- `BuiltinMap::get_help`; the `get_unchecked` access is embedded as
`getD` (claim C10 shows the index is always in bounds). -/
def BuiltinMap.get_help (m : BuiltinMap) (func : String) : Option String :=
  (binary_search m.name func).map (fun pos => m.help.getD pos "")

/-- `BuiltinMap::get`; the `get_unchecked` access is embedded as `getD`
(claim C10 shows the index is always in bounds). -/
def BuiltinMap.get (m : BuiltinMap) (func : String) : Option Fn :=
  (binary_search m.name func).map (fun pos => m.functions.getD pos default)

/-! ## Expansion engine: data model (`src/lib/shell/shell_expand.rs` and
the modules it consults)

The `Value` union, the `Select`/`Index`/`Range` descriptors, the variable
store and the directory stack live in modules of this repository that are
not under `src/`; they are modelled from the spec where noted. -/

/-- Modelled from the spec: `Value` is a tagged union of String,
Array (ordered sequence of Value), Map (ordered key-to-Value, string
keys; the source distinguishes a `HashMap` and a `BTreeMap` variant,
both embedded as association lists in iteration order) and Function. -/
inductive Value where
  | str (s : String)
  | array (xs : List Value)
  | hashMap (pairs : List (String × Value))
  | btreeMap (pairs : List (String × Value))
  | function (name : String)

mutual

/-- Modelled from the spec: the stringified form of a value
(`format!` on a `Value`), as used by the expansion engine: a string is
itself, a collection is its parts joined by spaces. -/
def Value.display : Value → String
  | .str s => s
  | .function n => n
  | .array xs => String.intercalate " " (Value.displayList xs)
  | .hashMap ps => String.intercalate " " (Value.displayPairs ps)
  | .btreeMap ps => String.intercalate " " (Value.displayPairs ps)

/-- Stringified forms of the elements of an array value. -/
def Value.displayList : List Value → List String
  | [] => []
  | v :: vs => v.display :: Value.displayList vs

/-- Stringified forms of the entries of a map value. -/
def Value.displayPairs : List (String × Value) → List String
  | [] => []
  | (k, v) :: rest => (k ++ " " ++ v.display) :: Value.displayPairs rest

end

/-- The `Index` of the `ranges` crate: a forward or backward position. -/
inductive Index where
  | forward (n : Nat)
  | backward (n : Nat)

/-- Modelled from the spec: `Index::resolve` maps a forward index to
itself and a backward index `n` to `len-1-n`; an out-of-range index
yields no result (the `ranges` crate is not under `src/`). -/
def Index.resolve : Index → Nat → Option Nat
  | .forward n, len => if n < len then some n else none
  | .backward n, len => if n < len then some (len - 1 - n) else none

/-- Modelled from the spec: the `Range(start,len)` Select descriptor. -/
structure SRange where
  start : Nat
  length : Nat

/-- Modelled from the spec: `Range::bounds` resolves the descriptor to
the start and length of a half-open `[start, start+length)` window (the
`ranges` crate is not under `src/`). -/
def SRange.bounds (r : SRange) (_len : Nat) : Option (Nat × Nat) :=
  some (r.start, r.length)

/-- The `Select` descriptor of the parser; `noneSel` embeds the
source's `Select::None`. -/
inductive Select where
  | noneSel
  | all
  | index (i : Index)
  | range (r : SRange)
  | key (k : String)

/-- Modelled from the spec: the Variable Store, a mapping from name to
tagged value (`shell/variables` is not under `src/`). -/
structure Variables where
  vars : List (String × Value)

/-- `Variables::get_ref`: look a name up in the store. -/
def Variables.get_ref (v : Variables) (name : String) : Option Value :=
  v.vars.lookup name

/-- Modelled from the spec: `Variables::get_str` looks up a scalar
string value. -/
def Variables.get_str (v : Variables) (name : String) : Option String :=
  match v.get_ref name with
  | some (.str s) => some s
  | _ => none

/-- Modelled from the spec: the directory stack, most recent directory
first (`shell/directory_stack` is not under `src/`). -/
structure DirectoryStack where
  dirs : List String

/-- Modelled from the spec: the `num`-th directory from the top of the
directory stack. -/
def DirectoryStack.dir_from_top (d : DirectoryStack) (num : Nat) : Option String :=
  d.dirs[num]?

/-- Modelled from the spec: the `num`-th directory from the bottom of
the directory stack. -/
def DirectoryStack.dir_from_bottom (d : DirectoryStack) (num : Nat) : Option String :=
  d.dirs.reverse[num]?

/-- The shell's process state: `Running | Stopped | Exited | Signaled |
Empty` (from the spec's data model; `shell/job_control` is not under
`src/`). `Empty` is the reusable-slot tombstone. -/
inductive ProcessState where
  | running
  | stopped
  | exited (code : Int)
  | signaled (signal : Int)
  | empty
  deriving DecidableEq

/-- One entry of the background job table, as consulted by
`builtin_exit`: a pid and a state. -/
structure BgProcess where
  pid : Nat
  state : ProcessState

/-- The fields of `Shell` consulted by the embedded functions
(`variables` is a reserved word in Lean, so that field is named `vars`
here). -/
structure Shell where
  vars : Variables
  envVars : List (String × String)
  previous_status : Int
  directory_stack : DirectoryStack
  background : List BgProcess

/-- `std::env::var` against the embedded process environment. -/
def Shell.envVar (sh : Shell) (name : String) : Option String :=
  sh.envVars.lookup name

/-! ## Expansion engine: `Shell::array` -/

/-- Rust `str::split_whitespace` (for the ASCII whitespace relevant
here): split on runs of whitespace, discarding empty tokens. -/
def splitWsAux : List Char → List Char → List String
  | [], cur => if cur.isEmpty then [] else [String.mk cur.reverse]
  | c :: cs, cur =>
    if c.isWhitespace then
      (if cur.isEmpty then [] else [String.mk cur.reverse]) ++ splitWsAux cs []
    else splitWsAux cs (c :: cur)

/-- Rust `str::split_whitespace` on a string. -/
def splitWs (s : String) : List String := splitWsAux s.toList []

/-- The `Select::All` body of the two map arms of `Shell::array`: walk
the entries, pushing the key and then the value's tokens onto the
growing argument vector. -/
def mapAllFold (pairs : List (String × Value)) : List String :=
  pairs.foldl
    (fun arr kv =>
      let f := kv.2.display
      arr ++ [kv.1] ++
        (match kv.2 with
         | .str _ => [f]
         | .array _ => splitWs f
         | .hashMap _ => splitWs f
         | .btreeMap _ => splitWs f
         | _ => []))
    []

/-- The key string a numeric map index is reinterpreted as:
`Forward(n)` becomes `n as isize`, `Backward(n)` becomes `-(n+1)`. -/
def indexKey : Index → String
  | .forward n => toString (n : Int)
  | .backward n => toString (-((n : Int) + 1))

/-- The selection match of the `HashMap` arm of `Shell::array`; the
`BTreeMap` arm is textually identical in the source and shares this
embedding. -/
def mapSelect (pairs : List (String × Value)) : Select → Option (List String)
  | .all => some (mapAllFold pairs)
  | .key k => some [((pairs.lookup k).getD (Value.str "")).display]
  | .index idx => some [((pairs.lookup (indexKey idx)).getD (Value.str "")).display]
  | _ => none

/-- `Shell::array` (the `Expander` impl in `shell_expand.rs`). -/
def Shell.array (sh : Shell) (name : String) (selection : Select) : Option (List String) :=
  match sh.vars.get_ref name with
  | some (Value.array arr) =>
    match selection with
    | .all => some (arr.map Value.display)
    | .index id =>
      ((id.resolve arr.length).bind (fun n => arr[n]?)).map (fun x => [x.display])
    | .range r =>
      (r.bounds arr.length).bind (fun p =>
        if arr.length > p.1 then
          some (((arr.drop p.1).take p.2).map Value.display)
        else none)
    | _ => none
  | some (Value.hashMap hmap) => mapSelect hmap selection
  | some (Value.btreeMap bmap) => mapSelect bmap selection
  | _ => none

/-- The argument words an expansion yields: an unresolved (`none`)
expansion contributes no words and is never an error (spec: resolution
failures degrade to empty, never fatal). -/
def yieldedWords (o : Option (List String)) : List String := o.getD []

/-- The spec's description of map flattening under `Select::All`: an
interleaved key/value sequence in which, after each key, a scalar string
value contributes exactly one argument, the stringified form of a
collection value contributes one argument per whitespace-separated
token, and any other value contributes none. -/
def specMapAll (pairs : List (String × Value)) : List String :=
  pairs.flatMap
    (fun kv =>
      kv.1 ::
        (match kv.2 with
         | .str _ => [kv.2.display]
         | .array _ => splitWs kv.2.display
         | .hashMap _ => splitWs kv.2.display
         | .btreeMap _ => splitWs kv.2.display
         | _ => []))

/-! ## Character-level string operations

The Rust code manipulates strings at byte level; the strings the claims
touch are ASCII, where byte positions and character positions agree.
These helpers work on the character list of a string and reduce inside
the kernel, which the positional functions of core `String` (defined by
well-founded recursion on byte offsets) do not. -/

/-- Rust `&s[..n]` / `str::take` at character level. -/
def strTake (s : String) (n : Nat) : String := String.mk (s.toList.take n)

/-- Rust `&s[n..]` at character level. -/
def strDrop (s : String) (n : Nat) : String := String.mk (s.toList.drop n)

/-- Rust `str::starts_with` at character level. -/
def strStartsWith (s pre : String) : Bool := pre.toList.isPrefixOf s.toList

/-- Rust `str::ends_with` at character level. -/
def strEndsWith (s suf : String) : Bool := suf.toList.isSuffixOf s.toList

/-- Drop the last `n` characters. -/
def strDropRight (s : String) (n : Nat) : String :=
  String.mk (s.toList.take (s.toList.length - n))

/-- The longest prefix whose characters satisfy `p`. -/
def strTakeWhile (p : Char -> Bool) (s : String) : String :=
  String.mk (s.toList.takeWhile p)

/-! ## Command substitution (`Shell::command`) -/

/-- `STDIN_FILENO` from the sys module. -/
def STDIN_FILENO : Nat := 0

/-- `SIGTERM` from the sys module (`syscall::SIGTERM`). -/
def SIGTERM : Int := 15

/-- The combined outcome of `self.fork(Capture::StdoutThenIgnoreStderr,
...)` and the subsequent `read_to_string` of the child's standard
output.  The fork machinery lives outside `src/`, so the embedding takes
the outcome of that effect as a parameter: a successful capture, a
failed read, or a failed fork. -/
inductive ForkOutcome where
  | captured (stdoutContents : String)
  | readError (why : String)
  | forkError (why : String)

/-- What `Shell::command` produces: the optional captured output it
returns, the messages it prints to the error stream, and the
`tcsetpgrp` calls (fd paired with the process-group argument) it makes
before returning. -/
structure CommandOutcome where
  output : Option String
  errors : List String
  tcsetpgrpCalls : List (Nat × Nat)

/-- `Shell::command` (the `Expander` impl): match on the fork/read
outcome, then unconditionally hand the terminal's process group on
standard input back to `process::id()` (the shell's own pid, passed
here as `pid`); the result of that `tcsetpgrp` is discarded. -/
def Shell.command (fr : ForkOutcome) (pid : Nat) : CommandOutcome :=
  let res : Option String × List String :=
    match fr with
    | .captured s => (some s, [])
    | .readError why => (none, ["ion: error reading stdout of child: " ++ why])
    | .forkError why => (none, ["ion: fork error: " ++ why])
  { output := res.1, errors := res.2, tcsetpgrpCalls := [(STDIN_FILENO, pid)] }

/-- Modelled from the spec: a subshell running `echo hello` writes the
line `hello` followed by a newline to its captured standard output (the
echo builtin crate is not under `src/`). -/
def echoHelloStdout : String := "hello\n"

/-- Modelled from the spec: the expansion caller strips the trailing
newline from captured command-substitution output (that caller is not
under `src/`). -/
def stripTrailingNewline (s : String) : String :=
  if strEndsWith s "\n" then strDropRight s 1 else s

/-! ## `builtin_exit` -/

/-- Modelled from the spec: `check_help` (in `man_pages`, not under
`src/`) detects a help flag among the arguments. -/
def check_help (args : List String) : Bool :=
  args.any (fun a => a == "-h" || a == "--help")

/-- Rust `str::parse::<i32>`: optional sign, decimal digits, i32
range. -/
def parseI32 (s : String) : Option Int :=
  let sd : Int × String :=
    if strStartsWith s "-" then (-1, strDrop s 1)
    else if strStartsWith s "+" then (1, strDrop s 1)
    else (1, s)
  if sd.2 = "" ∨ ¬ (sd.2.toList.all Char.isDigit) then none
  else
    let v : Int :=
      sd.1 * ((sd.2.toList.foldl (fun (acc : Nat) c => acc * 10 + (c.toNat - 48)) 0 : Nat) : Int)
    if -2147483648 ≤ v ∧ v ≤ 2147483647 then some v else none

/-- The observable effects of `builtin_exit`, in order: best-effort
`sys::kill` calls and the final `Shell::exit`.  A `wait` constructor
exists only so the embedding can state that exiting never awaits a
signaled process. -/
inductive ExitEvent where
  | kill (pid : Nat) (signal : Int)
  | wait (pid : Nat)
  | exitShell (status : Int)
  deriving DecidableEq

/-- `builtin_exit`: after the help check, walk the background table in
order, send `SIGTERM` to every entry whose state is not `Empty` (the
result of each `kill` is discarded), then exit with the parsed first
argument, falling back to the previous status. -/
def builtin_exit (args : List String) (sh : Shell) : List ExitEvent :=
  if check_help args then []
  else
    (sh.background.flatMap (fun p =>
        if p.state ≠ ProcessState.empty then [ExitEvent.kill p.pid SIGTERM] else []))
      ++ [ExitEvent.exitShell ((args[1]?.bind parseI32).getD sh.previous_status)]

/-! ## `execve` (`members/sys/src/sys/redox/mod.rs`) -/

/-- The metadata of the file under execution: owner, group, mode. -/
structure FileMeta where
  uid : Nat
  gid : Nat
  mode : Nat

/-- A resolved executable file: its contents (embedded at character
level; the bytes the code inspects are ASCII) and its metadata. -/
structure FileData where
  content : String
  meta : FileMeta

/-- The process identity: real ids as returned by `syscall::getuid` /
`syscall::getgid`, effective ids as returned by `syscall::geteuid` /
`syscall::getegid`. -/
structure ProcIdentity where
  ruid : Nat
  euid : Nat
  rgid : Nat
  egid : Nat

/-- The permission-bit group `execve` selects for a shebang file: owner
bits when `syscall::getuid()` matches the file's owner, group bits when
`syscall::getgid()` matches the file's group, other bits otherwise. -/
def selectedMode (ident : ProcIdentity) (meta : FileMeta) : Nat :=
  if ident.ruid = meta.uid then (meta.mode >>> (3 * 2)) &&& 0o7
  else if ident.rgid = meta.gid then (meta.mode >>> (3 * 1)) &&& 0o7
  else meta.mode &&& 0o7

/-- The outcome of `execve` once the program file is resolved and open:
an early permission error, or the final `fexec` call together with the
interpreter file it opened (if any) and the argument list it
constructed. -/
inductive ExecOutcome where
  | permissionDenied
  | fexec (openedInterpreter : Option String) (argv : List String)
  deriving DecidableEq

/-- The body of `execve` from the point where the resolved program file
is open: read the first two bytes; on a `#!` directive check the
execute bit of the permission group selected by the real uid/gid and
fail with permission-denied when it is clear, otherwise read the
interpreter from the rest of the directive line (dropping the trailing
newline), open it and place it first in the argument list, followed by
the program path and then the arguments; without a directive the
argument list is the program path followed by the arguments. -/
def execveOpened (ident : ProcIdentity) (prog : String) (file : FileData)
    (args : List String) : ExecOutcome :=
  if strTake file.content 2 = "#!" then
    if selectedMode ident file.meta &&& 0o1 = 0o0 then .permissionDenied
    else
      let interpreter := strTakeWhile (fun c => c != '\n') (strDrop file.content 2)
      .fexec (some interpreter) (interpreter :: prog :: args)
  else .fexec none (prog :: args)

/-- The claim's permission selection rule: permission bits chosen by
matching the process's effective uid/gid against the file's owner and
group. -/
def claimEffectiveMode (ident : ProcIdentity) (meta : FileMeta) : Nat :=
  if ident.euid = meta.uid then (meta.mode >>> (3 * 2)) &&& 0o7
  else if ident.egid = meta.gid then (meta.mode >>> (3 * 1)) &&& 0o7
  else meta.mode &&& 0o7

/-- The amended claim's permission selection rule: permission bits
chosen by matching the process's real uid/gid against the file's owner
and group. -/
def claimRealMode (ident : ProcIdentity) (meta : FileMeta) : Nat :=
  if ident.ruid = meta.uid then (meta.mode >>> (3 * 2)) &&& 0o7
  else if ident.rgid = meta.gid then (meta.mode >>> (3 * 1)) &&& 0o7
  else meta.mode &&& 0o7

/-! ## `Shell::tilde` -/

/-- `sys::variables::get_user_home` of the redox backend: always
`None`. -/
def get_user_home (_username : String) : Option String := none

/-- `sys::env::home_dir`: the `HOME` environment value. -/
def Shell.home_dir (sh : Shell) : Option String := sh.envVar "HOME"

/-- The digit phase of Rust `str::parse::<usize>`: fails on an empty or
non-digit string and on usize overflow. -/
def parseDigits (digits : String) : Option Nat :=
  if digits = "" ∨ ¬ (digits.toList.all Char.isDigit) then none
  else
    let v := digits.toList.foldl (fun (acc : Nat) c => acc * 10 + (c.toNat - 48)) 0
    if v < 18446744073709551616 then some v else none

/-- Rust `str::parse::<usize>`: an optional leading plus sign, then the
digit phase. -/
def parseUsize (s : String) : Option Nat :=
  parseDigits (if strStartsWith s "+" then strDrop s 1 else s)

/-- The position (in characters; the inputs of interest are ASCII, so
character and byte positions agree) of the first `/` or `$` in the text
after the tilde. -/
def findSepIdx (s : String) : Option Nat :=
  s.toList.findIdx? (fun c => c == '/' || c == '$')

/-- `Shell::tilde` (the `Expander` impl): split the input after the
leading `~` at the first `/` or `$` (or at the end when there is none),
then dispatch on the prefix: empty prefix resolves the home directory,
`+` the `PWD` environment value (literal `?` when unset), `-` the
`OLDPWD` variable, a numeric `N`/`+N`/`-N` prefix the directory stack
(bottom for non-negative, top for negative; note the source appends
`rest` in every branch except the numeric one, where the stack path is
returned alone), and any other prefix a username lookup. -/
def Shell.tilde (sh : Shell) (input : String) : Option String :=
  if ¬ strStartsWith input "~" then none
  else
    let tail := strDrop input 1
    let splitPos := (findSepIdx tail).getD (input.length - 1)
    let tildePre := strTake tail splitPos
    let rest := strDrop tail splitPos
    if tildePre = "" then sh.home_dir.map (fun home => home ++ rest)
    else if tildePre = "+" then some ((sh.envVar "PWD").getD "?" ++ rest)
    else if tildePre = "-" then (sh.vars.get_str "OLDPWD").map (fun o => o ++ rest)
    else
      let np : Bool × String :=
        if strStartsWith tildePre "+" then (false, strDrop tildePre 1)
        else if strStartsWith tildePre "-" then (true, strDrop tildePre 1)
        else (false, tildePre)
      match parseUsize np.2 with
      | some num =>
        if np.1 then sh.directory_stack.dir_from_top num
        else sh.directory_stack.dir_from_bottom num
      | none => (get_user_home tildePre).map (fun home => home ++ rest)

/-- The dispatch `Shell::tilde` performs once the input has been split
at the first `/` or `$` into the tilde prefix and the remainder: the
body of the source's `match tilde_prefix`.  `tilde_split` proves that
`Shell::tilde` reduces to this dispatch on every decomposed input. -/
def tildeMatched (sh : Shell) (tildePre rest : String) : Option String :=
  if tildePre = "" then sh.home_dir.map (fun home => home ++ rest)
  else if tildePre = "+" then some ((sh.envVar "PWD").getD "?" ++ rest)
  else if tildePre = "-" then (sh.vars.get_str "OLDPWD").map (fun o => o ++ rest)
  else
    let np : Bool × String :=
      if strStartsWith tildePre "+" then (false, strDrop tildePre 1)
      else if strStartsWith tildePre "-" then (true, strDrop tildePre 1)
      else (false, tildePre)
    match parseUsize np.2 with
    | some num =>
      if np.1 then sh.directory_stack.dir_from_top num
      else sh.directory_stack.dir_from_bottom num
    | none => (get_user_home tildePre).map (fun home => home ++ rest)

/-! ## Concrete states used by witnesses and counterexamples -/

/-- A concrete shell: an array, a hash map and a btree map variable, an
`OLDPWD` variable, a process environment, a three-deep directory stack
and a background table with an `Empty` slot between two live
processes. -/
def shW : Shell :=
  { vars := ⟨[ ("arr", Value.array [.str "x", .str "y", .str "z"])
             , ("hm", Value.hashMap
                 [("k1", .str "a b"), ("k2", .array [.str "a b", .str "c"]), ("k3", .function "f")])
             , ("bm", Value.btreeMap [("q", .str "v")])
             , ("OLDPWD", .str "/old") ]⟩
    envVars := [("PWD", "/tmp"), ("HOME", "/home/u")]
    previous_status := 0
    directory_stack := ⟨["/top", "/mid", "/bot"]⟩
    background := [⟨100, .running⟩, ⟨101, .empty⟩, ⟨102, .stopped⟩] }

/-- The process identity of the C7 counterexample: the effective ids
match the file's owner, the real ids match neither owner nor group. -/
def identC7 : ProcIdentity := ⟨1000, 500, 1000, 500⟩

/-- The shebang file of the C7 counterexample: owned by uid/gid 500
with mode `0o700` (owner may execute, nobody else may). -/
def fileC7 : FileData := ⟨"#!/bin/ion\necho hi\n", ⟨500, 500, 0o700⟩⟩

/-- Invariant of the binary-search loop: starting from a window
`[base, base+size)` inside the array, the returned probe position is a
valid index. -/
theorem binarySearchLoop_lt (names : List String) (key : String) :
    ∀ (fuel base size : Nat), 0 < size → base + size ≤ names.length →
      binarySearchLoop names key fuel base size < names.length := by
  intro fuel
  induction fuel with
  | zero =>
    intro base size h1 h2
    simp only [binarySearchLoop]
    omega
  | succ n ih =>
    intro base size h1 h2
    rw [binarySearchLoop]
    by_cases h : 1 < size
    · simp only [if_pos h]
      cases hc : strCmp (names.getD (base + size / 2) "") key with
      | gt =>
        simp only [hc]
        exact ih base (size - size / 2) (by omega) (by omega)
      | lt =>
        simp only [hc]
        exact ih (base + size / 2) (size - size / 2) (by omega) (by omega)
      | eq =>
        simp only [hc]
        exact ih (base + size / 2) (size - size / 2) (by omega) (by omega)
    · simp only [if_neg h]
      omega

/-- A successful binary search returns an index into the searched array. -/
theorem binary_search_lt (names : List String) (key : String) (pos : Nat)
    (h : binary_search names key = some pos) : pos < names.length := by
  unfold binary_search at h
  by_cases h0 : names.length = 0
  · simp [h0] at h
  · simp only [h0, if_false] at h
    cases hc :
        strCmp (names.getD (binarySearchLoop names key names.length 0 names.length) "") key with
    | lt => rw [hc] at h; exact absurd h (by simp)
    | gt => rw [hc] at h; exact absurd h (by simp)
    | eq =>
      rw [hc] at h
      have hpos : binarySearchLoop names key names.length 0 names.length = pos :=
        Option.some.inj h
      rw [← hpos]
      exact binarySearchLoop_lt names key names.length 0 names.length (by omega) (by omega)

/-- C8: the `BUILTINS` name array is sorted in strictly ascending order,
and every registered name is found by `contains_key` and mapped by `get`
to exactly the function registered next to it. -/
theorem builtins_sorted_and_lookup_complete :
    List.Pairwise (fun a b => strCmp a b = .lt) BUILTINS.name ∧
    ((BUILTINS.name.zip BUILTINS.functions).all
      (fun p => BUILTINS.contains_key p.1 && (BUILTINS.get p.1 == some p.2))) = true :=
  ⟨by decide, by decide⟩

/-- C10: whenever the binary search over the `BUILTINS` name array
succeeds, the returned position is a valid index into both the `help` and
the `functions` arrays, so the `get_unchecked` accesses in
`BuiltinMap::get` / `BuiltinMap::get_help` stay in bounds. -/
theorem builtins_search_index_in_bounds :
    ∀ (s : String) (pos : Nat), binary_search BUILTINS.name s = some pos →
      pos < BUILTINS.help.length ∧ pos < BUILTINS.functions.length := by
  intro s pos h
  have hlt := binary_search_lt BUILTINS.name s pos h
  have h1 : BUILTINS.help.length = BUILTINS.name.length := rfl
  have h2 : BUILTINS.functions.length = BUILTINS.name.length := rfl
  omega

/-- Witness for C10 at the concrete lookup string `"echo"`. -/
theorem builtins_search_index_in_bounds_witness :
    binary_search BUILTINS.name "echo" = some 9 ∧
    9 < BUILTINS.help.length ∧ 9 < BUILTINS.functions.length :=
  ⟨by decide, builtins_search_index_in_bounds "echo" 9 (by decide)⟩

end Ion

namespace Ion

/-- C1: `Shell::command` hands the terminal process group on standard
input back to the shell's own process id (`pid`) on every path —
successful capture, read failure and fork failure — and the two failure
paths return no output (`none`) after printing a message to the error
stream; the return type carries no error, so no fatal error can reach
the caller. -/
theorem command_restores_terminal_never_fatal :
    ∀ (fr : ForkOutcome) (pid : Nat),
      (Shell.command fr pid).tcsetpgrpCalls = [(STDIN_FILENO, pid)] ∧
      (∀ s, (Shell.command (.captured s) pid).output = some s ∧
            (Shell.command (.captured s) pid).errors = []) ∧
      (∀ why, (Shell.command (.readError why) pid).output = none ∧
              (Shell.command (.readError why) pid).errors =
                ["ion: error reading stdout of child: " ++ why]) ∧
      (∀ why, (Shell.command (.forkError why) pid).output = none ∧
              (Shell.command (.forkError why) pid).errors =
                ["ion: fork error: " ++ why]) := by
  intro fr pid
  refine ⟨?_, fun s => ⟨rfl, rfl⟩, fun why => ⟨rfl, rfl⟩, fun why => ⟨rfl, rfl⟩⟩
  cases fr <;> rfl

/-- C6: command substitution of a command whose subshell writes
`hello` plus a newline captures exactly that text, and the expansion
caller's trailing-newline strip yields `hello`. -/
theorem command_echo_hello_newline_stripped :
    ∀ pid : Nat,
      (Shell.command (.captured echoHelloStdout) pid).output = some "hello\n" ∧
      ((Shell.command (.captured echoHelloStdout) pid).output).map stripTrailingNewline =
        some "hello" := by
  intro pid
  refine ⟨rfl, ?_⟩
  show (some echoHelloStdout).map stripTrailingNewline = some "hello"
  decide

/-- C2: for an array variable, a forward index `i < len` selects the
same single argument as the backward index `len-1-i`, and any
out-of-range index (forward or backward) yields no result rather than
an error. -/
theorem array_index_forward_backward (sh : Shell) (name : String) (arr : List Value)
    (h : sh.vars.get_ref name = some (Value.array arr)) :
    (∀ i, i < arr.length →
        sh.array name (.index (.forward i)) =
          sh.array name (.index (.backward (arr.length - 1 - i))) ∧
        ∃ x, sh.array name (.index (.forward i)) = some [x]) ∧
    (∀ i, arr.length ≤ i →
        sh.array name (.index (.forward i)) = none ∧
        sh.array name (.index (.backward i)) = none) := by
  constructor
  · intro i hi
    have hb : arr.length - 1 - i < arr.length := by omega
    have heq : arr.length - 1 - (arr.length - 1 - i) = i := by omega
    have he : arr[i]? = some arr[i] := List.getElem?_eq_getElem hi
    constructor
    · simp only [Shell.array, h, Index.resolve, if_pos hi, if_pos hb, heq]
    · exact ⟨arr[i].display, by simp [Shell.array, h, Index.resolve, if_pos hi, he]⟩
  · intro i hi
    have h1 : ¬ (i < arr.length) := by omega
    simp [Shell.array, h, Index.resolve, if_neg h1]

/-- Witness for C2 on the concrete three-element array of `shW`:
forward index 0 agrees with backward index 2, and index 5 is
out of range in both directions. -/
theorem array_index_forward_backward_witness :
    shW.vars.get_ref "arr" = some (Value.array [.str "x", .str "y", .str "z"]) ∧
    (shW.array "arr" (.index (.forward 0)) = shW.array "arr" (.index (.backward 2)) ∧
      ∃ x, shW.array "arr" (.index (.forward 0)) = some [x]) ∧
    (shW.array "arr" (.index (.forward 5)) = none ∧
      shW.array "arr" (.index (.backward 5)) = none) := by
  have h := array_index_forward_backward shW "arr" [.str "x", .str "y", .str "z"] rfl
  exact ⟨rfl, h.1 0 (by decide), h.2 5 (by decide)⟩

/-- C5: a range selection on an array variable yields `none` — hence
zero argument words, never an error — when its resolved start is at or
past the length, and otherwise the elements of the half-open window
`[start, start+length)` clamped to the available length. -/
theorem array_range_clamped (sh : Shell) (name : String) (arr : List Value) (r : SRange)
    (h : sh.vars.get_ref name = some (Value.array arr)) :
    (arr.length ≤ r.start →
        sh.array name (.range r) = none ∧
        yieldedWords (sh.array name (.range r)) = []) ∧
    (r.start < arr.length →
        sh.array name (.range r) =
          some (((arr.drop r.start).take r.length).map Value.display)) := by
  constructor
  · intro hge
    have h1 : ¬ (arr.length > r.start) := by omega
    constructor
    · simp [Shell.array, h, SRange.bounds, if_neg h1]
    · simp [Shell.array, h, SRange.bounds, if_neg h1, yieldedWords]
  · intro hlt
    have h1 : arr.length > r.start := by omega
    simp [Shell.array, h, SRange.bounds, if_pos h1]

/-- Witness for C5 on the concrete three-element array of `shW`: the
range starting at 5 yields no words, the range `[1, 1+5)` clamps to the
last two elements. -/
theorem array_range_clamped_witness :
    shW.vars.get_ref "arr" = some (Value.array [.str "x", .str "y", .str "z"]) ∧
    (shW.array "arr" (.range ⟨5, 2⟩) = none ∧
      yieldedWords (shW.array "arr" (.range ⟨5, 2⟩)) = []) ∧
    shW.array "arr" (.range ⟨1, 5⟩) = some ["y", "z"] := by
  have h5 := array_range_clamped shW "arr" [.str "x", .str "y", .str "z"] ⟨5, 2⟩ rfl
  have h1 := array_range_clamped shW "arr" [.str "x", .str "y", .str "z"] ⟨1, 5⟩ rfl
  refine ⟨rfl, h5.1 (by decide), ?_⟩
  rw [h1.2 (by decide)]
  decide

/-- Folding an append-step over a list from an accumulator is the
accumulator followed by the concatenation of the per-element blocks. -/
theorem foldl_append_flatMap (g : (String × Value) → List String) :
    ∀ (l : List (String × Value)) (acc : List String),
      l.foldl (fun a x => a ++ g x) acc = acc ++ l.flatMap g := by
  intro l
  induction l with
  | nil => intro acc; simp
  | cons x xs ih => intro acc; simp [ih]

/-- The imperative push-loop of the map `Select::All` arms equals the
spec's per-entry description of the flattening. -/
theorem mapAllFold_eq_specMapAll (pairs : List (String × Value)) :
    mapAllFold pairs = specMapAll pairs := by
  unfold mapAllFold specMapAll
  rw [show (fun (arr : List String) (kv : String × Value) =>
        arr ++ [kv.1] ++
          (match kv.2 with
           | .str _ => [kv.2.display]
           | .array _ => splitWs kv.2.display
           | .hashMap _ => splitWs kv.2.display
           | .btreeMap _ => splitWs kv.2.display
           | _ => [])) =
      (fun arr kv => arr ++
        (kv.1 :: (match kv.2 with
           | .str _ => [kv.2.display]
           | .array _ => splitWs kv.2.display
           | .hashMap _ => splitWs kv.2.display
           | .btreeMap _ => splitWs kv.2.display
           | _ => []))) from ?_]
  · exact foldl_append_flatMap _ pairs [] |>.trans (by simp)
  · funext arr kv
    cases kv.2 <;> simp

/-- C4: `Select::All` on a map variable (hash map or btree map) yields
the interleaved key/value sequence in which, after each key, a scalar
string value contributes exactly one argument while the stringified
form of a collection value is split on whitespace into one argument per
token. -/
theorem array_map_all_interleaved (sh : Shell) (name : String)
    (pairs : List (String × Value)) :
    (sh.vars.get_ref name = some (Value.hashMap pairs) →
        sh.array name .all = some (specMapAll pairs)) ∧
    (sh.vars.get_ref name = some (Value.btreeMap pairs) →
        sh.array name .all = some (specMapAll pairs)) := by
  constructor
  · intro h
    simp [Shell.array, h, mapSelect, mapAllFold_eq_specMapAll]
  · intro h
    simp [Shell.array, h, mapSelect, mapAllFold_eq_specMapAll]

/-- Witness for C4 on the concrete maps of `shW`: the string value
`"a b"` stays one argument, the array value splits into `a`, `b`, `c`,
the function value contributes only its key. -/
theorem array_map_all_interleaved_witness :
    shW.vars.get_ref "hm" = some (Value.hashMap
      [("k1", .str "a b"), ("k2", .array [.str "a b", .str "c"]), ("k3", .function "f")]) ∧
    shW.array "hm" .all = some (specMapAll
      [("k1", .str "a b"), ("k2", .array [.str "a b", .str "c"]), ("k3", .function "f")]) ∧
    shW.array "hm" .all = some ["k1", "a b", "k2", "a", "b", "c", "k3"] ∧
    shW.vars.get_ref "bm" = some (Value.btreeMap [("q", .str "v")]) ∧
    shW.array "bm" .all = some (specMapAll [("q", .str "v")]) := by
  have h := array_map_all_interleaved shW "hm"
    [("k1", .str "a b"), ("k2", .array [.str "a b", .str "c"]), ("k3", .function "f")]
  have h2 := array_map_all_interleaved shW "bm" [("q", .str "v")]
  exact ⟨rfl, h.1 rfl, by decide, rfl, h2.2 rfl⟩

/-- Per-element conditional emission distributes as a filter followed
by a map. -/
theorem flatMap_if_eq_filter_map {α β : Type} (l : List α) (q : α → Prop) [DecidablePred q]
    (g : α → β) :
    (l.flatMap (fun x => if q x then [g x] else [])) =
      (l.filter (fun x => decide (q x))).map g := by
  induction l with
  | nil => simp
  | cons x xs ih => by_cases hx : q x <;> simp [hx, ih]

/-- C9: when no help flag is given, `builtin_exit` sends `SIGTERM` to
exactly the background-table entries whose state is not `Empty`, in
table order, and then exits with the parsed argument (or previous
status); it never awaits any process. -/
theorem exit_signals_background (args : List String) (sh : Shell)
    (h : check_help args = false) :
    builtin_exit args sh =
      ((sh.background.filter (fun p => p.state ≠ ProcessState.empty)).map
        (fun p => ExitEvent.kill p.pid SIGTERM))
      ++ [ExitEvent.exitShell ((args[1]?.bind parseI32).getD sh.previous_status)] ∧
    (∀ pid, ExitEvent.wait pid ∉ builtin_exit args sh) := by
  have heq : builtin_exit args sh =
      ((sh.background.filter (fun p => p.state ≠ ProcessState.empty)).map
        (fun p => ExitEvent.kill p.pid SIGTERM))
      ++ [ExitEvent.exitShell ((args[1]?.bind parseI32).getD sh.previous_status)] := by
    unfold builtin_exit
    rw [if_neg (by simp [h])]
    rw [flatMap_if_eq_filter_map]
  refine ⟨heq, ?_⟩
  intro pid hmem
  rw [heq] at hmem
  simp only [List.mem_append, List.mem_map, List.mem_singleton] at hmem
  rcases hmem with ⟨p, _, hp⟩ | hp <;> exact absurd hp (by simp)

/-- Witness for C9 on the concrete background table of `shW` (running,
empty, stopped): the two live processes get `SIGTERM`, the `Empty` slot
does not, and the exit status parses from the argument. -/
theorem exit_signals_background_witness :
    check_help ["exit", "3"] = false ∧
    builtin_exit ["exit", "3"] shW =
      [ExitEvent.kill 100 SIGTERM, ExitEvent.kill 102 SIGTERM, ExitEvent.exitShell 3] ∧
    (∀ pid, ExitEvent.wait pid ∉ builtin_exit ["exit", "3"] shW) := by
  have h := exit_signals_background ["exit", "3"] shW rfl
  refine ⟨rfl, ?_, h.2⟩
  rw [h.1]
  decide

end Ion

namespace Ion

/-- Counterexample for C7: a shebang file owned by the process's
effective uid with owner-execute permission.  The claim's
effective-identity rule selects the owner bits (execute set, value 7),
yet `execve` — which matches the real uid/gid — selects the other bits
and denies permission instead of opening the interpreter. -/
theorem execve_effective_identity_counterexample :
    execveOpened identC7 "./test.ion" fileC7 ["a"] = ExecOutcome.permissionDenied ∧
    claimEffectiveMode identC7 fileC7.meta &&& 0o1 = 1 :=
  ⟨by decide, by decide⟩

/-- C7 (amended): for a file beginning with `#!`, `execve` selects the
permission group by matching the process's real uid/gid (owner, group,
other) and returns permission-denied exactly when that group's execute
bit is clear; otherwise it opens the interpreter named on the directive
line and prepends it, then the original file path, to the argument
list. -/
theorem execve_shebang_real_identity (ident : ProcIdentity) (prog : String)
    (file : FileData) (args : List String)
    (hsb : strTake file.content 2 = "#!") :
    (claimRealMode ident file.meta &&& 0o1 = 0 →
        execveOpened ident prog file args = .permissionDenied) ∧
    (claimRealMode ident file.meta &&& 0o1 ≠ 0 →
        execveOpened ident prog file args =
          .fexec (some (strTakeWhile (fun c => c != '\n') (strDrop file.content 2)))
            (strTakeWhile (fun c => c != '\n') (strDrop file.content 2) :: prog :: args)) := by
  have hcr : claimRealMode ident file.meta = selectedMode ident file.meta := rfl
  constructor
  · intro hm
    rw [hcr] at hm
    unfold execveOpened
    rw [if_pos hsb, if_pos hm]
  · intro hm
    rw [hcr] at hm
    unfold execveOpened
    rw [if_pos hsb, if_neg hm]

/-- Witness for C7 (amended) on `fileC7` with an identity whose real
uid matches the owner: the interpreter `/bin/ion` is opened and
prepended, followed by the original path. -/
theorem execve_shebang_real_identity_witness :
    strTake fileC7.content 2 = "#!" ∧
    claimRealMode ⟨500, 500, 500, 500⟩ fileC7.meta &&& 0o1 ≠ 0 ∧
    execveOpened ⟨500, 500, 500, 500⟩ "./test.ion" fileC7 ["a"] =
      ExecOutcome.fexec (some "/bin/ion") ["/bin/ion", "./test.ion", "a"] := by
  have h := execve_shebang_real_identity ⟨500, 500, 500, 500⟩ "./test.ion" fileC7 ["a"]
    (by decide)
  refine ⟨by decide, by decide, ?_⟩
  rw [h.2 (by decide)]
  decide

/-- Counterexample for C3: for the numeric tilde prefix, the source
maps the resolved stack directory to a plain string without appending
the remainder of the input, so `~1/foo` on the stack of `shW` yields
`/mid`, not `/mid/foo` as the claim requires. -/
theorem tilde_numeric_rest_dropped_counterexample :
    shW.directory_stack.dir_from_bottom 1 = some "/mid" ∧
    shW.tilde "~1/foo" = some "/mid" ∧
    shW.tilde "~1/foo" ≠ some ("/mid" ++ "/foo") :=
  ⟨by decide, by decide, by decide⟩

/-- Splitting the input after the tilde: for every separator-free
prefix and every remainder that is empty or begins with `/` or `$`,
`Shell::tilde` on `~` ++ prefix ++ remainder performs exactly the
source's prefix dispatch on that decomposition. -/
theorem tilde_split (sh : Shell) (pre rest : String)
    (hpre : ∀ c ∈ pre.toList, (c == '/' || c == '$') = false)
    (hrest : rest = "" ∨ ∃ c rs, rest.toList = c :: rs ∧ (c == '/' || c == '$') = true) :
    sh.tilde ("~" ++ pre ++ rest) = tildeMatched sh pre rest := by
  have htl : ("~" ++ pre ++ rest).toList = '~' :: (pre.toList ++ rest.toList) := by
    obtain ⟨pd⟩ := pre
    obtain ⟨rd⟩ := rest
    rfl
  have hstart : strStartsWith ("~" ++ pre ++ rest) "~" = true := by
    rw [strStartsWith, htl]
    show List.isPrefixOf ['~'] ('~' :: (pre.toList ++ rest.toList)) = true
    simp [List.isPrefixOf_cons₂, List.isPrefixOf_nil_left]
  have hdrop1 : strDrop ("~" ++ pre ++ rest) 1 = String.mk (pre.toList ++ rest.toList) := by
    rw [strDrop, htl]
    rfl
  have hlen : ("~" ++ pre ++ rest).length = 1 + (pre.toList.length + rest.toList.length) := by
    show ("~" ++ pre ++ rest).toList.length = _
    rw [htl]
    simp [List.length_append]
    omega
  have hnone : pre.toList.findIdx? (fun c => c == '/' || c == '$') = none :=
    List.findIdx?_eq_none_iff.mpr hpre
  have hfind : (findSepIdx (String.mk (pre.toList ++ rest.toList))).getD
      (("~" ++ pre ++ rest).length - 1) = pre.toList.length := by
    rcases hrest with hr | ⟨c, rs, hcr, hsep⟩
    · have hrl : rest.toList = [] := by rw [hr]; rfl
      show ((pre.toList ++ rest.toList).findIdx? (fun c => c == '/' || c == '$')).getD
        (("~" ++ pre ++ rest).length - 1) = pre.toList.length
      rw [hrl, List.append_nil, hnone]
      show ("~" ++ pre ++ rest).length - 1 = pre.toList.length
      rw [hlen, hrl]
      simp
    · show ((pre.toList ++ rest.toList).findIdx? (fun c => c == '/' || c == '$')).getD
        (("~" ++ pre ++ rest).length - 1) = pre.toList.length
      rw [hcr, List.findIdx?_append, hnone]
      simp [List.findIdx?_cons, hsep]
  have htake : strTake (String.mk (pre.toList ++ rest.toList)) pre.toList.length = pre := by
    show String.mk ((pre.toList ++ rest.toList).take pre.toList.length) = pre
    rw [List.take_left]
    rfl
  have hdropn : strDrop (String.mk (pre.toList ++ rest.toList)) pre.toList.length = rest := by
    show String.mk ((pre.toList ++ rest.toList).drop pre.toList.length) = rest
    rw [List.drop_left]
    rfl
  unfold Shell.tilde
  rw [if_neg (by rw [hstart]; simp)]
  simp only [hdrop1, hfind, htake, hdropn]
  rfl

/-- A successful digit parse means the text was nonempty and made of
digits. -/
theorem parseDigits_some (digits : String) (num : Nat) (h : parseDigits digits = some num) :
    digits ≠ "" ∧ digits.toList.all Char.isDigit = true := by
  by_cases hd : digits = "" ∨ ¬ (digits.toList.all Char.isDigit = true)
  · unfold parseDigits at h
    rw [if_pos hd] at h
    cases h
  · push_neg at hd
    exact hd

/-- A nonempty all-digit string does not start with a non-digit
character. -/
theorem digits_not_startsWith (digits : String) (c : Char)
    (hne : digits ≠ "") (hdig : digits.toList.all Char.isDigit = true)
    (hnd : c.isDigit = false) :
    strStartsWith digits (String.mk [c]) = false := by
  cases htl : digits.toList with
  | nil =>
    exfalso
    apply hne
    calc digits = String.mk digits.toList := rfl
    _ = String.mk [] := by rw [htl]
  | cons d ds =>
    have hdd : d.isDigit = true := by
      rw [htl] at hdig
      simp only [List.all_cons, Bool.and_eq_true] at hdig
      exact hdig.1
    have hcd : c ≠ d := by
      intro hc
      rw [hc, hdd] at hnd
      cases hnd
    rw [strStartsWith, htl]
    show List.isPrefixOf [c] (d :: ds) = false
    simp [List.isPrefixOf_cons₂, List.isPrefixOf_nil_left, hcd]

/-- A string starting with the one-character prefix `c` has `c` as the
head of its character list. -/
theorem startsWith_char_toList (s : String) (c : Char)
    (h : strStartsWith s (String.mk [c]) = true) : ∃ ds, s.toList = c :: ds := by
  cases htl : s.toList with
  | nil =>
    rw [strStartsWith, htl] at h
    cases h
  | cons d ds =>
    rw [strStartsWith, htl] at h
    have heq : c = d := by
      have h2 : List.isPrefixOf [c] (d :: ds) = true := h
      simp only [List.isPrefixOf_cons₂, List.isPrefixOf_nil_left, Bool.and_true,
        beq_iff_eq] at h2
      exact h2
    subst heq
    exact ⟨ds, rfl⟩

/-- A usize parse of a plus-prefixed string succeeds on the text after
the sign with the same value. -/
theorem parseUsize_strip_plus (s : String) (num : Nat)
    (hplus : strStartsWith s "+" = true) (h : parseUsize s = some num) :
    parseUsize (strDrop s 1) = some num := by
  unfold parseUsize at h
  rw [if_pos hplus] at h
  have hshape := parseDigits_some (strDrop s 1) num h
  have hsw : strStartsWith (strDrop s 1) (String.mk ['+']) = false :=
    digits_not_startsWith (strDrop s 1) '+' hshape.1 hshape.2 (by decide)
  unfold parseUsize
  rw [if_neg (by rw [show ("+" : String) = String.mk ['+'] from rfl, hsw]; simp)]
  exact h

/-- A usize parse that succeeds without a plus sign rules out a minus
sign too. -/
theorem parseUsize_not_minus (s : String) (num : Nat)
    (hplus : strStartsWith s "+" = false) (h : parseUsize s = some num) :
    strStartsWith s "-" = false := by
  unfold parseUsize at h
  rw [if_neg (by rw [hplus]; simp)] at h
  have hshape := parseDigits_some s num h
  exact digits_not_startsWith s '-' hshape.1 hshape.2 (by decide)

/-- C3 (amended): for every tilde input, decomposed as `~` followed by
the prefix before the first `/` or `$` and the remainder, the prefix
determines the substitution — empty prefix the home directory, `+` the
`PWD` environment value (the literal `?` when `PWD` is unset), `-` the
`OLDPWD` variable, and a numeric `N`/`+N` (respectively `-N`) prefix
the `N`th directory from the bottom (respectively top) of the directory
stack; the remainder is appended in the home, `+` and `-` cases, while
in the numeric cases the stack directory is returned alone. -/
theorem tilde_prefix_resolution (sh : Shell) (pre rest : String)
    (hpre : ∀ c ∈ pre.toList, (c == '/' || c == '$') = false)
    (hrest : rest = "" ∨ ∃ c rs, rest.toList = c :: rs ∧ (c == '/' || c == '$') = true) :
    (pre = "" →
        sh.tilde ("~" ++ pre ++ rest) = (sh.envVar "HOME").map (fun home => home ++ rest)) ∧
    (pre = "+" →
        sh.tilde ("~" ++ pre ++ rest) = some ((sh.envVar "PWD").getD "?" ++ rest)) ∧
    (pre = "-" →
        sh.tilde ("~" ++ pre ++ rest) = (sh.vars.get_str "OLDPWD").map (fun o => o ++ rest)) ∧
    (∀ num : Nat, parseUsize pre = some num →
        sh.tilde ("~" ++ pre ++ rest) = sh.directory_stack.dir_from_bottom num) ∧
    (∀ num : Nat, strStartsWith pre "-" = true → parseUsize (strDrop pre 1) = some num →
        sh.tilde ("~" ++ pre ++ rest) = sh.directory_stack.dir_from_top num) := by
  have hs := tilde_split sh pre rest hpre hrest
  refine ⟨?_, ?_, ?_, ?_, ?_⟩
  · intro hc
    subst hc
    rw [hs]
    rfl
  · intro hc
    subst hc
    rw [hs]
    rfl
  · intro hc
    subst hc
    rw [hs]
    rfl
  · intro num hparse
    rw [hs]
    have hne : pre ≠ "" := by
      intro hc
      rw [hc] at hparse
      exact Option.noConfusion hparse
    have hnp : pre ≠ "+" := by
      intro hc
      rw [hc] at hparse
      exact Option.noConfusion hparse
    have hnm : pre ≠ "-" := by
      intro hc
      rw [hc] at hparse
      exact Option.noConfusion hparse
    unfold tildeMatched
    rw [if_neg hne, if_neg hnp, if_neg hnm]
    by_cases hplus : strStartsWith pre "+" = true
    · have hp2 := parseUsize_strip_plus pre num hplus hparse
      simp only [hplus, if_true, hp2, Bool.false_eq_true, if_false]
    · have hplusF : strStartsWith pre "+" = false := by
        cases hx : strStartsWith pre "+" with
        | true => exact absurd hx hplus
        | false => rfl
      have hminusF : strStartsWith pre "-" = false :=
        parseUsize_not_minus pre num hplusF hparse
      have hp2 : parseUsize pre = some num := hparse
      simp only [hplusF, hminusF, if_false, Bool.false_eq_true, hp2]
  · intro num hminus hparse
    rw [hs]
    obtain ⟨ds, hdz⟩ := startsWith_char_toList pre '-' hminus
    have hne : pre ≠ "" := by
      intro hc
      rw [hc] at hdz
      cases hdz
    have hnp : pre ≠ "+" := by
      intro hc
      rw [hc] at hdz
      have hpm : '+' = '-' := by
        have := List.cons.inj (hdz : ("+" : String).toList = '-' :: ds)
        exact this.1
      cases hpm
    have hnm : pre ≠ "-" := by
      intro hc
      rw [hc] at hparse
      exact Option.noConfusion hparse
    have hplusF : strStartsWith pre "+" = false := by
      rw [strStartsWith, hdz]
      show List.isPrefixOf ['+'] ('-' :: ds) = false
      simp [List.isPrefixOf_cons₂, List.isPrefixOf_nil_left]
    unfold tildeMatched
    rw [if_neg hne, if_neg hnp, if_neg hnm]
    simp only [hplusF, hminus, if_true, if_false, Bool.false_eq_true, hparse]

/-- Witness for C3 (amended) on the concrete shell `shW` (`HOME`
`/home/u`, `PWD` `/tmp`, `OLDPWD` `/old`, stack `/top`, `/mid`,
`/bot`), covering both separators, a separator-free input and both
numeric directions. -/
theorem tilde_prefix_resolution_witness :
    shW.tilde ("~" ++ "" ++ "/x") = some "/home/u/x" ∧
    shW.tilde ("~" ++ "" ++ "$v") = some "/home/u$v" ∧
    shW.tilde ("~" ++ "+" ++ "/foo") = some "/tmp/foo" ∧
    shW.tilde ("~" ++ "-" ++ "/y") = some "/old/y" ∧
    shW.tilde ("~" ++ "2" ++ "/z") = some "/top" ∧
    shW.tilde ("~" ++ "2" ++ "") = some "/top" ∧
    shW.tilde ("~" ++ "-1" ++ "/w") = some "/mid" := by
  have h0 := tilde_prefix_resolution shW "" "/x" (by decide) (Or.inr ⟨'/', ['x'], rfl, by decide⟩)
  have h0b := tilde_prefix_resolution shW "" "$v" (by decide) (Or.inr ⟨'$', ['v'], rfl, by decide⟩)
  have h1 := tilde_prefix_resolution shW "+" "/foo" (by decide)
    (Or.inr ⟨'/', ['f', 'o', 'o'], rfl, by decide⟩)
  have h2 := tilde_prefix_resolution shW "-" "/y" (by decide) (Or.inr ⟨'/', ['y'], rfl, by decide⟩)
  have h3 := tilde_prefix_resolution shW "2" "/z" (by decide) (Or.inr ⟨'/', ['z'], rfl, by decide⟩)
  have h3b := tilde_prefix_resolution shW "2" "" (by decide) (Or.inl rfl)
  have h4 := tilde_prefix_resolution shW "-1" "/w" (by decide) (Or.inr ⟨'/', ['w'], rfl, by decide⟩)
  refine ⟨?_, ?_, ?_, ?_, ?_, ?_, ?_⟩
  · rw [h0.1 rfl]; rfl
  · rw [h0b.1 rfl]; rfl
  · rw [h1.2.1 rfl]; rfl
  · rw [h2.2.2.1 rfl]; rfl
  · rw [h3.2.2.2.1 2 (by decide)]; rfl
  · rw [h3b.2.2.2.1 2 (by decide)]; rfl
  · rw [h4.2.2.2.2 1 (by decide) (by decide)]; rfl

end Ion
